import Mathlib

/-!
Verification of the heel-gun HTTP-robustness tester: a shallow embedding of
the request-synthesis and outcome-classification pipeline from
`src/target.rs`, `src/outcome.rs`, `src/config.rs` and `src/main.rs`.

Modelling conventions:
* Rust `String`/`&str` values are modelled as `List Char` (named `Str`), so
  that splitting, scanning and concatenation are plain structural list
  functions that the kernel can evaluate.
* The random source (`rand::Rng`) is modelled as an infinite stream of
  naturals `RNG = Nat → Nat`; each primitive draw consumes the stream head
  and reduces it modulo the size of the sampled range, which is how the
  claims' universally-quantified "for every random source" is read.
* A Rust panic (for example `rand`'s `gen_range` on an empty range) is
  modelled by returning `none`.
* File-system and network effects are abstracted: a trial's interaction with
  the HTTP client is modelled by a `TransportResult` chosen by the
  environment, and the CSV failure log is modelled as the list of rows the
  run writes.
-/

/-- Rust strings, modelled as lists of characters. -/
abbrev Str := List Char

/-- A random source: an infinite stream of naturals (model of `rand::Rng`). -/
def RNG : Type := Nat → Nat

/-- Draw one value from the random source, returning the rest of the stream. -/
def next (r : RNG) : Nat × RNG := (r 0, fun n => r (n + 1))

/-- A fixed concrete random source used for concrete evaluations. -/
def rngZero : RNG := fun _ => 0

/-! ### `src/target.rs`: `Method` -/

/-- `Method` from `src/target.rs` lines 8-14: the four supported HTTP
methods.  The serde rename attributes name the variants `get`, `put`,
`post`, `delete` on the wire. -/
inductive Method where
  | get
  | put
  | post
  | delete
  deriving DecidableEq, Repr

/-- `Method::from_str` from `src/target.rs` lines 16-28: a match accepting
exactly the all-caps, all-lowercase and capitalized spellings of each
method name. -/
def Method.fromStr (s : Str) : Except Str Method :=
  if s = "GET".data ∨ s = "get".data ∨ s = "Get".data then .ok .get
  else if s = "PUT".data ∨ s = "put".data ∨ s = "Put".data then .ok .put
  else if s = "POST".data ∨ s = "post".data ∨ s = "Post".data then .ok .post
  else if s = "DELETE".data ∨ s = "delete".data ∨ s = "Delete".data then .ok .delete
  else .error "Invalid method".data

/-- Deserialization of `Method` (`src/target.rs` lines 8-14): serde's derived
deserializer for a unit-variant enum accepts exactly the `rename` string of
each variant (here the lowercase method names), with no case folding. -/
def deserializeMethod (s : Str) : Option Method :=
  if s = "get".data then some .get
  else if s = "put".data then some .put
  else if s = "post".data then some .post
  else if s = "delete".data then some .delete
  else none

/-! ### `src/target.rs`: `ArgGenerator` and sampling -/

mutual

/-- `ArgGenerator<String>` from `src/target.rs` lines 113-137.  The `union`
variant holds `Vec<ArgGenerator>`; the list is represented by the companion
type `GenList` (a copy of `List` specialized to `ArgGenerator`, which lets
Lean compile all recursion over the tree structurally). -/
inductive ArgGenerator where
  | fixed (value : Str)
  | choice (values : List Str)
  | intRange (low high : Int)
  | numeric (len : Nat)
  | alphaNumeric (len : Nat)
  | union (generators : GenList)
  | magic

/-- An ordered sequence of generators (`Vec<ArgGenerator>`). -/
inductive GenList where
  | nil
  | cons (g : ArgGenerator) (gs : GenList)

end

/-- Length of a generator sequence. -/
def GenList.length : GenList → Nat
  | .nil => 0
  | .cons _ gs => gs.length + 1

/-- Decimal rendering of an `i64` (Rust `i64: Display`), used by
`IntRange`/`Magic` sampling to stringify the drawn integer. -/
def intToStr (i : Int) : Str :=
  if i < 0 then '-' :: Nat.toDigits 10 i.natAbs else Nat.toDigits 10 i.natAbs

/-- The `Numeric` arm of `ArgGenerator::sample` (`src/target.rs` lines
163-165): `len` independent draws of `rng.gen_range(b'0'..=b'9')`, each
rendered as a character. -/
def sampleNumeric : Nat → RNG → Str × RNG
  | 0, r => ([], r)
  | n + 1, r =>
      let (k, r1) := next r
      let (s, r2) := sampleNumeric n r1
      (Char.ofNat (48 + k % 10) :: s, r2)

/-- The character set of `rand::distributions::Alphanumeric`: the 62 ASCII
letters and digits. -/
def alphanumericChars : Str :=
  "ABCDEFGHIJKLMNOPQRSTUVWXYZabcdefghijklmnopqrstuvwxyz0123456789".data

/-- The `AlphaNumeric` arm of `ArgGenerator::sample` (`src/target.rs` lines
166-170): `len` independent draws from the `Alphanumeric` distribution. -/
def sampleAlphaNum : Nat → RNG → Str × RNG
  | 0, r => ([], r)
  | n + 1, r =>
      let (k, r1) := next r
      let (s, r2) := sampleAlphaNum n r1
      (alphanumericChars.getD (k % 62) 'A' :: s, r2)

/-- `SliceRandom::choose` followed by `to_string` on a slice of strings, as
used by the `Choice` arm: an empty slice yields the empty string (the code
guards this case separately), otherwise one uniformly drawn element. -/
def chooseStr : List Str → RNG → Str × RNG
  | [], r => ([], r)
  | v :: rest, r =>
      let (k, r1) := next r
      ((v :: rest).getD (k % (rest.length + 1)) [], r1)

/-- The token list of the `Magic` arm's internal `Choice` generator
(`src/target.rs` line 173). -/
def magicTokens : List Str :=
  [[], "false".data, "true".data, "null".data, "undefined".data,
   "NaN".data, "%20".data, "%27".data]

mutual

/-- `ArgGenerator::sample` from `src/target.rs` lines 151-183.
`none` models a panic: the only panicking arm is `IntRange`, where
`rng.gen_range(low..=high)` panics when `low > high` (an empty range).
`Choice`/`Union` over an empty sequence yield the empty string by the
explicit guards at lines 158-159.  The `Magic` arm (lines 171-181) chooses
uniformly among its three fixed generators - the edge-case token `Choice`,
`AlphaNumeric(16)` and `IntRange(-100000, 100000)` - and samples the chosen
one; those three are inlined here (each is a fixed non-recursive generator
whose range is non-empty, so every `Magic` branch succeeds). -/
def sample : ArgGenerator → RNG → Option (Str × RNG)
  | .fixed v, r => some (v, r)
  | .choice vs, r => some (chooseStr vs r)
  | .intRange lo hi, r =>
      if lo > hi then none
      else
        let (k, r1) := next r
        some (intToStr (lo + (k % (hi - lo + 1).toNat)), r1)
  | .numeric len, r => some (sampleNumeric len r)
  | .alphaNumeric len, r => some (sampleAlphaNum len r)
  | .union gs, r =>
      match gs with
      | .nil => some ([], r)
      | .cons g rest =>
          let (k, r1) := next r
          sampleNth (GenList.cons g rest) (k % (rest.length + 1)) r1
  | .magic, r =>
      let (k, r1) := next r
      match k % 3 with
      | 0 => some (chooseStr magicTokens r1)
      | 1 => some (sampleAlphaNum 16 r1)
      | _ =>
          let (k2, r2) := next r1
          some (intToStr (-100000 + (k2 % 200001)), r2)

/-- Sample the generator at a given index of a sequence (the
`generators.choose(rng).unwrap().sample(rng)` step of the `Union` arm; the
index passed is always < length, so the `nil` fallback is unreachable). -/
def sampleNth : GenList → Nat → RNG → Option (Str × RNG)
  | .nil, _, r => some ([], r)
  | .cons g _, 0, r => sample g r
  | .cons _ rest, n + 1, r => sampleNth rest n r

end

mutual

/-- Well-formedness of a generator tree: every `IntRange` node has
`low ≤ high`.  This is the spec's load-time validity condition;
`Config::from_file` in `src/config.rs` performs no such check. -/
def ArgGenerator.wf : ArgGenerator → Bool
  | .intRange lo hi => lo ≤ hi
  | .union gs => gs.wfList
  | _ => true

/-- All generators of a sequence are well-formed. -/
def GenList.wfList : GenList → Bool
  | .nil => true
  | .cons g gs => g.wf && gs.wfList

end

/-! ### `src/target.rs`: `TestArg`, `TestTarget` and URI assembly -/

/-- `TestArg` from `src/target.rs` lines 93-110. -/
inductive TestArg where
  | path (generator : ArgGenerator)
  | queryString (name : ArgGenerator) (value : ArgGenerator)

/-- `TestTarget` from `src/target.rs` lines 41-49. -/
structure TestTarget where
  endpoint : Str
  method : Method
  args : List TestArg

/-- Rust `str::starts_with` on the list-of-characters model. -/
def strStartsWith : Str → Str → Bool
  | _, [] => true
  | [], _ :: _ => false
  | c :: s, p :: ps => c = p && strStartsWith s ps

/-- The argument loop of `TestTarget::sample` (`src/target.rs` lines
67-88), threading the accumulated path `uri` and query string `qs`: a
`Path` arg appends a slash and the sampled value to `uri`; a `QueryString`
arg appends to `qs` a separator (a question mark when `qs` is still empty,
an ampersand otherwise), the sampled name, and, only when the sampled value
is non-empty, an equals sign and the value. -/
def argsFold : List TestArg → Str → Str → RNG → Option (Str × Str × RNG)
  | [], uri, qs, r => some (uri, qs, r)
  | .path g :: rest, uri, qs, r =>
      match sample g r with
      | none => none
      | some (v, r1) => argsFold rest (uri ++ '/' :: v) qs r1
  | .queryString name value :: rest, uri, qs, r =>
      match sample name r with
      | none => none
      | some (n, r1) =>
          match sample value r1 with
          | none => none
          | some (v, r2) =>
              let qs1 := (if qs = [] then qs ++ ['?'] else qs ++ ['&']) ++ n
              argsFold rest uri (if v = [] then qs1 else qs1 ++ '=' :: v) r2

/-- The string assembled by `TestTarget::sample` (`src/target.rs` lines
57-90) before the final `.parse()` into a `Uri`: start from `base`, push a
slash unless the endpoint already starts with one, push the endpoint, run
the argument loop, and concatenate path and query string.  The trailing
`Uri` parse (the `InvalidUri` failure mode) is the http crate's validation
and is not modelled; `none` here models a generator panic. -/
def TestTarget.sampleStr (t : TestTarget) (base : Str) (r : RNG) : Option (Str × RNG) :=
  let uri0 := base ++ (if strStartsWith t.endpoint ['/'] then [] else ['/']) ++ t.endpoint
  match argsFold t.args uri0 [] r with
  | none => none
  | some (uri, qs, r1) => some (uri ++ qs, r1)

/-! ### `src/outcome.rs`: outcomes -/

/-- `http::StatusCode`: the http crate represents any three-digit status
code, `from_u16` accepting exactly the range 100..=999. -/
abbrev StatusCode := {n : Nat // 100 ≤ n ∧ n ≤ 999}

/-- `StatusCode::is_server_error` of the http crate: code in 500..=599. -/
def StatusCode.isServerError (s : StatusCode) : Bool :=
  500 ≤ s.val && s.val < 600

/-- `OutcomeKind` from `src/outcome.rs` lines 42-58.  The hyper error held
by `BadHttp` is abstracted to its message string. -/
inductive OutcomeKind where
  | good (status : StatusCode)
  | badError (status : StatusCode)
  | badHttp (err : Str)

/-- `ServerOutcome` from `src/outcome.rs` lines 10-18 (the request URI is
kept as the assembled string). -/
structure ServerOutcome where
  method : Method
  uri : Str
  kind : OutcomeKind

/-- `ServerOutcome::with_status` from `src/outcome.rs` lines 21-31: keep
method and URI, classify by `status.is_server_error()`.  (`src/main.rs`
additionally passes the response body alongside the status; the body is
not inspected by the classification and is abstracted away.) -/
def ServerOutcome.withStatus (method : Method) (uri : Str) (status : StatusCode) :
    ServerOutcome :=
  { method := method
    uri := uri
    kind := if status.isServerError then .badError status else .good status }

/-- `ServerOutcome::bad_http` from `src/outcome.rs` lines 33-39. -/
def ServerOutcome.badHttp (method : Method) (uri : Str) (err : Str) : ServerOutcome :=
  { method := method, uri := uri, kind := .badHttp err }

/-! ### `src/main.rs`: the per-trial pipeline and the run loop -/

/-- The pipeline error type `Error` from `src/main.rs` lines 46-88
(error payloads abstracted to message strings; the `Io`/`Hyper` variants,
which only occur in the body-persisting side task, are omitted). -/
inductive PipeError where
  | httpStream (method : Method) (uri : Str) (err : Str)
  | http (method : Method) (uri : Str) (err : Str)
  | invalidRequest (err : Str)
  | writeFailure (err : Str)

/-- What the HTTP client collaborator does with one issued request: either a
response with some status code, or a transport failure, which hyper
classifies as connection-level (`err.is_connect()`) or not. -/
inductive TransportResult where
  | response (status : StatusCode)
  | failure (isConnect : Bool) (err : Str)

/-- The response-handling closure of `test_target_requests`
(`src/main.rs` lines 158-181): a received response is classified with
`ServerOutcome::with_status`; a transport failure with `is_connect()`
becomes the pipeline error `Error::HttpStream`, and any other transport
failure becomes the server-caused outcome `ServerOutcome::bad_http`. -/
def handleTransport (method : Method) (uri : Str) : TransportResult →
    Except PipeError ServerOutcome
  | .response status => .ok (ServerOutcome.withStatus method uri status)
  | .failure isConnect err =>
      if isConnect then .error (.httpStream method uri err)
      else .ok (ServerOutcome.badHttp method uri err)

/-- The environment-determined fate of one trial of a target: the sampled
URI fails to parse, or the request build fails, or the request is issued
and the transport result comes back. -/
inductive TrialEnv where
  | sampleErr (err : Str)
  | buildErr (uri : Str) (err : Str)
  | sent (uri : Str) (result : TransportResult)

/-- One trial of `test_target_requests` (`src/main.rs` lines 130-181): the
`and_then` chain sample -> build -> send.  A URI sampling failure becomes
`Error::InvalidRequest` (line 140), a request-build failure becomes
`Error::Http` (line 153), and the send step is `handleTransport`. -/
def runTrial (method : Method) : TrialEnv → Except PipeError ServerOutcome
  | .sampleErr e => .error (.invalidRequest e)
  | .buildErr u e => .error (.http method u e)
  | .sent u res => handleTransport method u res

/-- The `reason` column of a CSV failure row: the stringified status code
for a server-error outcome, the stringified transport error otherwise
(`src/main.rs` lines 214 and 246; the exact rendering is kept symbolic). -/
inductive Reason where
  | fromStatus (status : StatusCode)
  | fromErr (err : Str)

/-- One row of `failures.csv` (method, uri, reason). -/
structure CsvRow where
  method : Method
  uri : Str
  reason : Reason

/-- The CSV row written for one outcome by the recording closure of `main`
(`src/main.rs` lines 210-255): a row for `BadError` and `BadHttp`, nothing
for `Good`. -/
def rowsOf (o : ServerOutcome) : Option CsvRow :=
  match o.kind with
  | .good _ => none
  | .badError s => some ⟨o.method, o.uri, .fromStatus s⟩
  | .badHttp e => some ⟨o.method, o.uri, .fromErr e⟩

/-- The run loop of `main` (`src/main.rs` lines 205-263) over the flattened
sequence of trials (each trial tagged with its target's method).  The trial
streams are combined with `iter_ok(..).map(..).flatten()` and driven by
`and_then(record).for_each(..)`: under futures 0.1 semantics `for_each`
resolves to an error as soon as the stream yields its first `Err`, so the
first failing trial ends the whole run (`main` then logs "Server test
stopped abruptly"); trials before it have their bad outcomes recorded.
Returns the CSV rows written and whether the run completed.  (CSV writes
themselves are assumed to succeed; a write failure would likewise abort,
`src/main.rs` lines 236-252.) -/
def runPipeline : List (Method × TrialEnv) → List CsvRow × Bool
  | [] => ([], true)
  | (m, t) :: ts =>
      match runTrial m t with
      | .error _ => ([], false)
      | .ok o =>
          let (rows, completed) := runPipeline ts
          ((rowsOf o).toList ++ rows, completed)

/-- The whole run over the configured targets, each target contributing its
list of trials in order (`iter_ok(targets).map(test_target_requests).flatten()`,
`src/main.rs` lines 206-208). -/
def runTargets (targets : List (Method × List TrialEnv)) : List CsvRow × Bool :=
  runPipeline (targets.flatMap fun p => p.2.map fun t => (p.1, t))

/-! ### `src/config.rs`: route-file translation and file-type dispatch -/

/-- Rust `str::split(sep)` on the list-of-characters model: the list of
(possibly empty) components between occurrences of `sep`; the empty string
splits to one empty component. -/
def splitChar (sep : Char) : Str → List Str
  | [] => [[]]
  | c :: rest =>
      let r := splitChar sep rest
      if c = sep then [] :: r
      else
        match r with
        | [] => [[c]]
        | s :: ss => (c :: s) :: ss

/-- The component loop of `Config::parse_route_uri` (`src/config.rs` lines
87-113), threading the accumulated endpoint, argument list and `has_param`
flag: a component containing a wildcard rejects the route; a component
starting with a colon becomes a `PathSegment(Magic)` argument and sets
`has_param`; after `has_param` every literal component becomes a
`PathSegment(Fixed(component))`; before it, literal components extend the
endpoint, separated by a slash whenever the endpoint accumulated so far is
non-empty. -/
def routeGo : List Str → Str → List TestArg → Bool → Except Str (Str × List TestArg)
  | [], base, args, _ => .ok (base, args)
  | c :: rest, base, args, hasParam =>
      if c.contains '*' then
        .error "routes with wildcard are currently not supported".data
      else if strStartsWith c [':'] then
        routeGo rest base (args ++ [.path .magic]) true
      else if hasParam then
        routeGo rest base (args ++ [.path (.fixed c)]) hasParam
      else
        routeGo rest (if base = [] then base ++ c else base ++ '/' :: c) args hasParam

/-- `Config::parse_route_uri` from `src/config.rs` lines 83-116: split the
route URI pattern on slashes and run the component loop from an empty
endpoint, no arguments and `has_param = false`. -/
def parseRouteUri (uri : Str) : Except Str (Str × List TestArg) :=
  routeGo (splitChar '/' uri) [] [] false

/-- `std::path::Path::extension` restricted to a file name (Rust derives the
extension from `file_name()`): `None` when the name contains no dot or when
its only dot is the leading one, otherwise the portion after the last dot.
(Valid for actual file names, that is final path components other than the
dot directories.) -/
def rustExtension (fname : Str) : Option Str :=
  match splitChar '.' fname with
  | [] => none
  | [_] => none
  | [[], _] => none
  | _ :: rest => rest.getLast?

/-- Which configuration dialect `Config::from_file` hands the file to. -/
inductive ConfigSource where
  | routesFile
  | jsonFile
  | yamlFile
  deriving DecidableEq, Repr

/-- The dispatch of `Config::from_file` (`src/config.rs` lines 20-31) as a
function of the path's final component: a file named exactly `routes` goes
to the Play-routes parser before the extension is even inspected; otherwise
extension `json` selects the JSON parser, `yml` or `yaml` the YAML parser,
and anything else (including no extension) returns the unsupported-file
error before any file is opened.  (Both `file_name()` and `extension()`
depend only on the final path component, so the dispatch is modelled on
that component.) -/
def fromFileDispatch (fname : Str) : Except Str ConfigSource :=
  if fname = "routes".data then .ok .routesFile
  else
    match rustExtension fname with
    | some e =>
        if e = "json".data then .ok .jsonFile
        else if e = "yml".data ∨ e = "yaml".data then .ok .yamlFile
        else .error "Unsupported configuration file: must be .json .yml".data
    | none => .error "Unsupported configuration file: must be .json .yml".data

/-! ### Helper lemmas -/

/-- A character drawn by the `Numeric` arm is a decimal digit. -/
theorem numericChar_isDigit (k : Nat) : (Char.ofNat (48 + k % 10)).isDigit = true := by
  have h : k % 10 < 10 := Nat.mod_lt _ (by decide)
  set m := k % 10 with hm
  interval_cases m <;> decide

/-- A character drawn by the `AlphaNumeric` arm is alphanumeric. -/
theorem alphanumericChar_isAlphanum (i : Nat) :
    (alphanumericChars.getD i 'A').isAlphanum = true := by
  by_cases h : i < alphanumericChars.length
  · rw [List.getD_eq_getElem _ _ h]
    have hall : ∀ c ∈ alphanumericChars, c.isAlphanum = true := by decide
    exact hall _ (List.getElem_mem h)
  · rw [List.getD_eq_default _ _ (Nat.le_of_not_lt h)]
    decide

/-- Every string produced by `sampleNumeric` has length `len` and consists
of decimal digits only. -/
theorem sampleNumeric_spec : ∀ (len : Nat) (r : RNG),
    (sampleNumeric len r).1.length = len ∧
    (sampleNumeric len r).1.all (fun c => c.isDigit) = true := by
  intro len
  induction len with
  | zero => intro r; exact ⟨rfl, rfl⟩
  | succ n ih =>
      intro r
      obtain ⟨ihl, ihd⟩ := ih (next r).2
      refine ⟨?_, ?_⟩
      · simp [sampleNumeric, ihl]
      · simp only [sampleNumeric, List.all_cons, Bool.and_eq_true]
        exact ⟨numericChar_isDigit _, ihd⟩

/-- Every string produced by `sampleAlphaNum` has length `len` and consists
of alphanumeric characters only. -/
theorem sampleAlphaNum_spec : ∀ (len : Nat) (r : RNG),
    (sampleAlphaNum len r).1.length = len ∧
    (sampleAlphaNum len r).1.all (fun c => c.isAlphanum) = true := by
  intro len
  induction len with
  | zero => intro r; exact ⟨rfl, rfl⟩
  | succ n ih =>
      intro r
      obtain ⟨ihl, ihd⟩ := ih (next r).2
      refine ⟨?_, ?_⟩
      · simp [sampleAlphaNum, ihl]
      · simp only [sampleAlphaNum, List.all_cons, Bool.and_eq_true]
        exact ⟨alphanumericChar_isAlphanum _, ihd⟩

/-! ### Claim theorems -/

/-- Claim C9 (confirmed): for every length and every random source,
sampling `Numeric(len)` succeeds and returns a string of exactly `len`
characters, all decimal digits, and sampling `AlphaNumeric(len)` succeeds
and returns a string of exactly `len` characters, all alphanumeric;
length 0 yields the empty string in both cases. -/
theorem c9_numeric_alphanumeric_shape : ∀ (len : Nat) (r : RNG),
    sample (.numeric len) r = some (sampleNumeric len r)
    ∧ (sampleNumeric len r).1.length = len
    ∧ (sampleNumeric len r).1.all (fun c => c.isDigit) = true
    ∧ sample (.alphaNumeric len) r = some (sampleAlphaNum len r)
    ∧ (sampleAlphaNum len r).1.length = len
    ∧ (sampleAlphaNum len r).1.all (fun c => c.isAlphanum) = true
    ∧ (sampleNumeric 0 r).1 = []
    ∧ (sampleAlphaNum 0 r).1 = [] := by
  intro len r
  obtain ⟨hnl, hnd⟩ := sampleNumeric_spec len r
  obtain ⟨hal, had⟩ := sampleAlphaNum_spec len r
  exact ⟨rfl, hnl, hnd, rfl, hal, had, rfl, rfl⟩

/-- Claim C5 (confirmed): a connection-level transport failure becomes the
pipeline-level error `Error::HttpStream`; every transport failure that is
not connection-level becomes the `BadHttp` (`BadTransport`) outcome; a
successful exchange is classified with `ServerOutcome::with_status`. -/
theorem c5_transport_failure_routing : ∀ (m : Method) (u e : Str) (s : StatusCode),
    handleTransport m u (.failure true e) = .error (.httpStream m u e)
    ∧ handleTransport m u (.failure false e) = .ok (ServerOutcome.badHttp m u e)
    ∧ handleTransport m u (.response s) = .ok (ServerOutcome.withStatus m u s) :=
  fun _ _ _ _ => ⟨rfl, rfl, rfl⟩

/-- Claim C3 (corrected, amended half): `with_status` preserves the method
and the URI, classifies every status in 500..=599 as `BadServerError`, and
classifies every other representable status - 100..=499 and also
600..=999 - as `Good`. -/
theorem c3_with_status_classification : ∀ (m : Method) (u : Str) (s : StatusCode),
    (ServerOutcome.withStatus m u s).method = m
    ∧ (ServerOutcome.withStatus m u s).uri = u
    ∧ (ServerOutcome.withStatus m u s).kind =
        (if 500 ≤ s.val ∧ s.val ≤ 599 then .badError s else .good s) := by
  intro m u s
  refine ⟨rfl, rfl, ?_⟩
  show (if s.isServerError then OutcomeKind.badError s else OutcomeKind.good s) = _
  simp only [StatusCode.isServerError]
  split_ifs with h1 h2 h2 <;> first
    | rfl
    | (exfalso; simp only [Bool.and_eq_true, decide_eq_true_eq] at h1; omega)

/-- Claim C3 (counterexample): the status code 600 is representable (the
http crate accepts 100..=999) and satisfies 500 ≤ 600, yet `with_status`
classifies it as `Good`, because `is_server_error` only covers 500..=599 -
refuting "every status code ≥ 500 yields BadServerError". -/
theorem c3_counterexample :
    (ServerOutcome.withStatus .get "http://x/a".data ⟨600, by decide⟩).kind
      = OutcomeKind.good ⟨600, by decide⟩
    ∧ 500 ≤ (600 : Nat) :=
  ⟨rfl, by decide⟩

/-- Whether a trial succeeds (its stream item is `Ok`). -/
def trialOk (p : Method × TrialEnv) : Bool :=
  match runTrial p.1 p.2 with
  | .ok _ => true
  | .error _ => false

/-- The CSV row a successful trial contributes (none for a good outcome or
for a failed trial). -/
def trialRow (p : Method × TrialEnv) : Option CsvRow :=
  match runTrial p.1 p.2 with
  | .ok o => rowsOf o
  | .error _ => none

/-- Claim C1 (corrected, amended half): the run records exactly the bad
outcomes of the trials before the first failing trial, and completes only
when no trial fails - a per-trial error produces no CSV row, but it aborts
the rest of the run instead of leaving the remaining trials to execute. -/
theorem c1_first_trial_error_aborts_run : ∀ ts : List (Method × TrialEnv),
    runPipeline ts = ((ts.takeWhile trialOk).filterMap trialRow, ts.all trialOk) := by
  intro ts
  induction ts with
  | nil => rfl
  | cons p ts ih =>
      obtain ⟨m, t⟩ := p
      simp only [runPipeline]
      cases h : runTrial m t with
      | error e =>
          have hok : trialOk (m, t) = false := by simp [trialOk, h]
          simp [List.takeWhile_cons, List.all_cons, hok]
      | ok o =>
          have hok : trialOk (m, t) = true := by simp [trialOk, h]
          have hrow : trialRow (m, t) = rowsOf o := by simp [trialRow, h]
          simp only [ih, List.takeWhile_cons, List.all_cons, hok, if_true,
            List.filterMap_cons, hrow, Bool.true_and]
          cases hr : rowsOf o <;> simp [hr]

/-- Claim C1 (counterexample): two targets of one trial each; the first
target's trial fails to sample a valid URI, the second target's trial gets
a 503 response.  The run records no row at all - in particular the 503 of
the other target is lost - whereas the same 503 trial run without the
failing one ahead of it is classified and recorded. -/
theorem c1_counterexample :
    (runTargets [(.get, [.sampleErr "bad uri".data]),
                 (.get, [.sent "http://x/a".data (.response ⟨503, by decide⟩)])]).1 = []
    ∧ (runTargets [(.get, [.sent "http://x/a".data (.response ⟨503, by decide⟩)])]).1
        = [⟨.get, "http://x/a".data, .fromStatus ⟨503, by decide⟩⟩] :=
  ⟨rfl, rfl⟩

mutual

/-- Sampling succeeds on every well-formed generator tree. -/
theorem sample_total : ∀ (g : ArgGenerator) (r : RNG), g.wf = true →
    (sample g r).isSome = true
  | .fixed _, _, _ => rfl
  | .choice vs, r, _ => by cases vs <;> rfl
  | .intRange lo hi, r, h => by
      have hle : lo ≤ hi := by
        simpa [ArgGenerator.wf, decide_eq_true_eq] using h
      simp only [sample, if_neg (not_lt.mpr hle), Option.isSome_some]
  | .numeric _, _, _ => rfl
  | .alphaNumeric _, _, _ => rfl
  | .union gs, r, h => by
      cases gs with
      | nil => rfl
      | cons g rest =>
          have hwf : (GenList.cons g rest).wfList = true := by
            simpa [ArgGenerator.wf] using h
          simpa [sample] using
            sampleNth_total (GenList.cons g rest)
              ((next r).1 % (rest.length + 1)) (next r).2 hwf
  | .magic, r, _ => by
      rcases h3 : (next r).1 % 3 with _ | n
      · simp [sample, h3]
      · cases n with
        | zero => simp [sample, h3]
        | succ m => simp [sample, h3]

/-- Sampling the generator at any index of a well-formed sequence succeeds. -/
theorem sampleNth_total : ∀ (gs : GenList) (n : Nat) (r : RNG), gs.wfList = true →
    (sampleNth gs n r).isSome = true
  | .nil, _, _, _ => rfl
  | .cons g _, 0, r, h => by
      have hg : g.wf = true := by
        simp only [GenList.wfList, Bool.and_eq_true] at h
        exact h.1
      simpa [sampleNth] using sample_total g r hg
  | .cons _ rest, n + 1, r, h => by
      have hr : rest.wfList = true := by
        simp only [GenList.wfList, Bool.and_eq_true] at h
        exact h.2
      simpa [sampleNth] using sampleNth_total rest n r hr

end

/-- Claim C2 (corrected, amended half): `sample` is total on every
generator tree all of whose `IntRange` nodes satisfy `low ≤ high`
(`IntRange` with `low == high` included), and `Choice`/`Union` over an
empty sequence yield the empty string without failing.  (The load-time
rejection of `low > high` posited by the claim does not exist:
`Config::from_file` deserializes ranges unchecked, so `low > high`
surfaces as a sampling-time failure, see the counterexample.) -/
theorem c2_sample_total_on_wf_trees : ∀ (g : ArgGenerator) (r : RNG),
    (g.wf = true → (sample g r).isSome = true)
    ∧ sample (.choice []) r = some ([], r)
    ∧ sample (.union .nil) r = some ([], r) :=
  fun g r => ⟨sample_total g r, rfl, rfl⟩

/-- Claim C2 (witness): totality applied to the concrete well-formed tree
`Union [IntRange 0 5, Magic]` and the all-zero random source. -/
theorem c2_witness :
    (sample (.union (.cons (.intRange 0 5) (.cons .magic .nil))) rngZero).isSome = true :=
  (c2_sample_total_on_wf_trees
    (.union (.cons (.intRange 0 5) (.cons .magic .nil))) rngZero).1 (by decide)

/-- Claim C2 (counterexample): `IntRange` with `low > high` is accepted by
configuration loading (`Config::from_file` performs no range validation),
and sampling it fails - `rand`'s `gen_range` panics on the empty range -
so sampling is not total as claimed. -/
theorem c2_counterexample : sample (.intRange 1 0) rngZero = none := rfl

/-- Claim C10 (confirmed): `Config::from_file` dispatches on the path's
final component - a file named exactly `routes` always goes to the
route-file dialect (the extension is never consulted), any other file is
parsed as JSON exactly for extension `json` and as YAML exactly for
extensions `yml`/`yaml`, and any other extension (including none) yields
the unsupported-file error before any targets are loaded. -/
theorem c10_from_file_dispatch : ∀ fname : Str,
    (fname = "routes".data → fromFileDispatch fname = .ok .routesFile)
    ∧ (fname ≠ "routes".data → rustExtension fname = some "json".data →
        fromFileDispatch fname = .ok .jsonFile)
    ∧ (fname ≠ "routes".data →
        (rustExtension fname = some "yml".data ∨ rustExtension fname = some "yaml".data) →
        fromFileDispatch fname = .ok .yamlFile)
    ∧ (fname ≠ "routes".data →
        (∀ e, rustExtension fname = some e →
          e ≠ "json".data ∧ e ≠ "yml".data ∧ e ≠ "yaml".data) →
        fromFileDispatch fname =
          .error "Unsupported configuration file: must be .json .yml".data) := by
  intro fname
  refine ⟨?_, ?_, ?_, ?_⟩
  · intro h
    simp [fromFileDispatch, h]
  · intro h he
    simp [fromFileDispatch, h, he]
  · intro h he
    rcases he with he | he <;> simp [fromFileDispatch, h, he]
  · intro h he
    cases hx : rustExtension fname with
    | none => simp [fromFileDispatch, h, hx]
    | some e =>
        obtain ⟨h1, h2, h3⟩ := he e hx
        simp [fromFileDispatch, h, hx, h1, h2, h3]

/-- Claim C10 (witness): the dispatch applied to the concrete file names
`config.json` (JSON) and `routes` (route dialect). -/
theorem c10_witness :
    fromFileDispatch "config.json".data = .ok .jsonFile
    ∧ fromFileDispatch "routes".data = .ok .routesFile :=
  ⟨(c10_from_file_dispatch "config.json".data).2.1 (by decide) (by decide),
   (c10_from_file_dispatch "routes".data).1 (by decide)⟩

/-- Claim C8 (corrected, amended half): `Method::from_str` accepts exactly
the all-uppercase, all-lowercase and capitalized spellings of each method
name, and deserialization accepts exactly the lowercase serde names -
neither is fully case-insensitive. -/
theorem c8_method_parsing_casings : ∀ s : Str,
    (Method.fromStr s = .ok .get ↔ s = "GET".data ∨ s = "get".data ∨ s = "Get".data)
    ∧ (Method.fromStr s = .ok .put ↔ s = "PUT".data ∨ s = "put".data ∨ s = "Put".data)
    ∧ (Method.fromStr s = .ok .post ↔ s = "POST".data ∨ s = "post".data ∨ s = "Post".data)
    ∧ (Method.fromStr s = .ok .delete ↔
        s = "DELETE".data ∨ s = "delete".data ∨ s = "Delete".data)
    ∧ (deserializeMethod s = some .get ↔ s = "get".data)
    ∧ (deserializeMethod s = some .put ↔ s = "put".data)
    ∧ (deserializeMethod s = some .post ↔ s = "post".data)
    ∧ (deserializeMethod s = some .delete ↔ s = "delete".data) := by
  intro s
  simp only [Method.fromStr, deserializeMethod]
  split_ifs with h1 h2 h3 h4 h5 h6 h7 h8 <;> simp_all <;> casesm* _ ∨ _ <;> simp_all

/-- Claim C8 (counterexample): `gEt` spells "get" up to letter casing, yet
`Method::from_str` rejects it - parsing is not case-insensitive. -/
theorem c8_counterexample :
    Method.fromStr "gEt".data = .error "Invalid method".data
    ∧ "gEt".data.map Char.toLower = "get".data :=
  ⟨rfl, by decide⟩

/-! ### Spec-side reference functions for the route-file translation
(following the words of spec section 6, with the endpoint as the code
produces it: slash-joined with no leading slash). -/

/-- Components joined by single slashes (no leading slash). -/
def joinSlash : List Str → Str
  | [] => []
  | [c] => c
  | c :: rest => c ++ '/' :: joinSlash rest

/-- Reference endpoint of a route pattern: the components before the first
placeholder, leading empty components dropped, joined by slashes. -/
def specRouteEndpoint (cs : List Str) : Str :=
  joinSlash ((cs.takeWhile fun c => !(strStartsWith c [':'])).dropWhile fun c => c.isEmpty)

/-- Reference argument list of a route pattern: from the first placeholder
on, each placeholder component becomes `PathSegment(Magic)` and each
literal component becomes `PathSegment(Fixed(component))`. -/
def specRouteArgs (cs : List Str) : List TestArg :=
  (cs.dropWhile fun c => !(strStartsWith c [':'])).map fun c =>
    if strStartsWith c [':'] then TestArg.path .magic else TestArg.path (.fixed c)

/-- The endpoint accumulator of `parse_route_uri`, folded over a list of
literal components. -/
def endAcc (base : Str) (pre : List Str) : Str :=
  pre.foldl (fun b c => if b = [] then b ++ c else b ++ '/' :: c) base

/-- Slash-prefixed concatenation of components. -/
def slashConcat (pre : List Str) : Str :=
  pre.foldr (fun c acc => '/' :: c ++ acc) []

theorem routeGo_param : ∀ (cs : List Str) (base : Str) (args : List TestArg),
    (∀ c ∈ cs, c.contains '*' = false) →
    routeGo cs base args true = .ok (base, args ++ cs.map fun c =>
      if strStartsWith c [':'] then TestArg.path .magic else TestArg.path (.fixed c)) := by
  intro cs
  induction cs with
  | nil => intro base args _; simp [routeGo]
  | cons c rest ih =>
      intro base args h
      have hstar : c.contains '*' = false := h c (by simp)
      have hrest : ∀ d ∈ rest, d.contains '*' = false := fun d hd => h d (by simp [hd])
      by_cases hc : strStartsWith c [':'] = true
      · simp only [routeGo, hstar, Bool.false_eq_true, if_false, hc, if_true,
          ih _ _ hrest, List.map_cons, hc, List.append_assoc, List.cons_append,
          List.nil_append]
      · have hc2 : strStartsWith c [':'] = false := by
          cases hcc : strStartsWith c [':'] with
          | true => exact absurd hcc hc
          | false => rfl
        simp only [routeGo, hstar, Bool.false_eq_true, if_false, hc2, if_true,
          ih _ _ hrest, List.map_cons, List.append_assoc, List.cons_append,
          List.nil_append]

theorem routeGo_noparam : ∀ (cs : List Str) (base : Str) (args : List TestArg),
    (∀ c ∈ cs, c.contains '*' = false) →
    routeGo cs base args false =
      .ok (endAcc base (cs.takeWhile fun c => !(strStartsWith c [':'])),
           args ++ specRouteArgs cs) := by
  intro cs
  induction cs with
  | nil => intro base args _; simp [routeGo, endAcc, specRouteArgs]
  | cons c rest ih =>
      intro base args h
      have hstar : c.contains '*' = false := h c (by simp)
      have hrest : ∀ d ∈ rest, d.contains '*' = false := fun d hd => h d (by simp [hd])
      by_cases hc : strStartsWith c [':'] = true
      · simp only [routeGo, hstar, Bool.false_eq_true, if_false, hc, if_true,
          routeGo_param rest base (args ++ [TestArg.path .magic]) hrest,
          specRouteArgs, List.takeWhile_cons, List.dropWhile_cons, hc,
          Bool.not_true, Bool.false_eq_true, endAcc, List.foldl_nil,
          List.map_cons, List.append_assoc, List.cons_append, List.nil_append]
      · have hc2 : strStartsWith c [':'] = false := by
          cases hcc : strStartsWith c [':'] with
          | true => exact absurd hcc hc
          | false => rfl
        simp only [routeGo, hstar, Bool.false_eq_true, if_false, hc2, if_true,
          ih _ args hrest, specRouteArgs, List.takeWhile_cons, List.dropWhile_cons,
          hc2, Bool.not_false, if_true, endAcc, List.foldl_cons]

theorem endAcc_ne_nil : ∀ (pre : List Str) (b : Str), b ≠ [] →
    endAcc b pre = b ++ slashConcat pre := by
  intro pre
  induction pre with
  | nil => intro b _; simp [endAcc, slashConcat]
  | cons c rest ih =>
      intro b hb
      have hstep : endAcc b (c :: rest) = endAcc (b ++ '/' :: c) rest := by
        simp [endAcc, List.foldl_cons, if_neg hb]
      rw [hstep, ih _ (by simp),
          show slashConcat (c :: rest) = '/' :: c ++ slashConcat rest from rfl]
      simp [List.append_assoc]

theorem joinSlash_eq_slashConcat : ∀ (c : Str) (rest : List Str),
    joinSlash (c :: rest) = c ++ slashConcat rest := by
  intro c rest
  induction rest generalizing c with
  | nil => simp [joinSlash, slashConcat]
  | cons d rest2 ih =>
      simp only [joinSlash, ih d, slashConcat, List.foldr_cons, List.cons_append]

theorem endAcc_nil : ∀ pre : List Str,
    endAcc [] pre = joinSlash (pre.dropWhile fun c => c.isEmpty) := by
  intro pre
  induction pre with
  | nil => rfl
  | cons c rest ih =>
      cases c with
      | nil =>
          have h1 : endAcc [] (([] : Str) :: rest) = endAcc [] rest := rfl
          rw [h1, ih, List.dropWhile_cons]
          simp
      | cons a s =>
          have h1 : endAcc [] ((a :: s) :: rest) = endAcc (a :: s) rest := rfl
          rw [h1, endAcc_ne_nil rest (a :: s) (by simp), List.dropWhile_cons]
          simp only [List.isEmpty_cons, Bool.false_eq_true, if_false]
          exact (joinSlash_eq_slashConcat (a :: s) rest).symm

/-- Claim C4 (corrected, amended half): for every route URI pattern with no
wildcard component, `parse_route_uri` yields, as endpoint, the literal
components before the first `:placeholder` joined by single slashes with
no leading slash (so `/items/:id` gives endpoint `items`, not `/items`),
and, as arguments, one `PathSegment(Magic)` for each placeholder component
and one `PathSegment(Fixed(component))` for each literal component from
the first placeholder on, in order. -/
theorem c4_route_translation : ∀ uri : Str,
    (∀ c ∈ splitChar '/' uri, c.contains '*' = false) →
    parseRouteUri uri =
      .ok (specRouteEndpoint (splitChar '/' uri), specRouteArgs (splitChar '/' uri)) := by
  intro uri h
  show routeGo (splitChar '/' uri) [] [] false = _
  rw [routeGo_noparam _ _ _ h, endAcc_nil]
  rfl

/-- Claim C4 (witness): the route line URI `/items/:id` parses to endpoint
`items`, args `[PathSegment(Magic)]`. -/
theorem c4_witness :
    parseRouteUri "/items/:id".data = .ok ("items".data, [TestArg.path .magic]) := by
  have h := c4_route_translation "/items/:id".data (by decide)
  exact h.trans (by rfl)

/-- Claim C4 (counterexample): `/items/:id` does not parse to endpoint
`/items` - the code produces `items` (the empty component before the first
slash never starts the accumulator, so no leading slash survives). -/
theorem c4_counterexample :
    parseRouteUri "/items/:id".data ≠ .ok ("/items".data, [TestArg.path .magic]) := by
  intro h
  have h0 : parseRouteUri "/items/:id".data = .ok ("items".data, [TestArg.path .magic]) := rfl
  rw [h0] at h
  simp only [Except.ok.injEq, Prod.mk.injEq] at h
  exact absurd h.1 (by decide)

/-- A concatenation starts with its left part. -/
theorem strStartsWith_append : ∀ (a b : Str), strStartsWith (a ++ b) a = true := by
  intro a
  induction a with
  | nil => intro b; cases b <;> rfl
  | cons c s ih => intro b; simp [strStartsWith, ih b]

/-- The argument loop only ever appends to the path accumulator. -/
theorem argsFold_uri_extend : ∀ (args : List TestArg) (uri qs : Str) (r : RNG)
    (out : Str × Str × RNG), argsFold args uri qs r = some out →
    ∃ d, out.1 = uri ++ d := by
  intro args
  induction args with
  | nil =>
      intro uri qs r out h
      simp only [argsFold, Option.some.injEq] at h
      exact ⟨[], by simp [← h]⟩
  | cons a rest ih =>
      intro uri qs r out h
      cases a with
      | path g =>
          cases hs : sample g r with
          | none => simp [argsFold, hs] at h
          | some p =>
              obtain ⟨v, r1⟩ := p
              simp only [argsFold, hs] at h
              obtain ⟨d, hd⟩ := ih _ _ _ out h
              exact ⟨'/' :: v ++ d, by simp [hd, List.append_assoc]⟩
      | queryString name value =>
          cases hn : sample name r with
          | none => simp [argsFold, hn] at h
          | some pn =>
              obtain ⟨n, r1⟩ := pn
              cases hv : sample value r1 with
              | none => simp [argsFold, hn, hv] at h
              | some pv =>
                  obtain ⟨v, r2⟩ := pv
                  simp only [argsFold, hn, hv] at h
                  exact ih _ _ _ out h

/-- Claim C6 (corrected, amended half): the sampled URI string starts with
the base URL, then a single separating slash exactly when the endpoint
does not already start with one, then the endpoint template verbatim.
(`TestTarget::sample` never normalizes the base URL: a base URL ending in
a slash keeps it, and an endpoint starting with a slash contributes its
own.) -/
theorem c6_base_slash_endpoint : ∀ (t : TestTarget) (base : Str) (r : RNG)
    (s : Str) (r1 : RNG), t.sampleStr base r = some (s, r1) →
    strStartsWith s
      (base ++ (if strStartsWith t.endpoint ['/'] then [] else ['/']) ++ t.endpoint)
      = true := by
  intro t base r s r1 h
  simp only [TestTarget.sampleStr] at h
  cases hf : argsFold t.args
      (base ++ (if strStartsWith t.endpoint ['/'] then [] else ['/']) ++ t.endpoint)
      [] r with
  | none => rw [hf] at h; exact absurd h (by simp)
  | some out =>
      obtain ⟨uri, qs, r2⟩ := out
      rw [hf] at h
      simp only [Option.some.injEq, Prod.mk.injEq] at h
      obtain ⟨d, hd⟩ := argsFold_uri_extend _ _ _ _ _ hf
      rw [← h.1, show uri = _ from hd, List.append_assoc]
      exact strStartsWith_append _ _

/-- Claim C6 (witness): the amended statement applied to the target with
endpoint `/items` and no args, base URL `http://x` and the all-zero random
source, whose sampled string is `http://x/items`. -/
theorem c6_witness :
    strStartsWith "http://x/items".data
      ("http://x".data ++ (if strStartsWith ("/items".data : Str) ['/'] then [] else ['/'])
        ++ "/items".data) = true :=
  c6_base_slash_endpoint ⟨"/items".data, .get, []⟩ "http://x".data rngZero
    "http://x/items".data rngZero rfl

/-- Claim C6 (counterexample): for base URL `http://x` and endpoint
`/items` the sampled string is `http://x/items`, which does not begin with
base URL + `/` + endpoint (that would be `http://x//items`): no separating
slash is inserted when the endpoint already starts with one, refuting the
claim's "for every base_url string and every endpoint string". -/
theorem c6_counterexample :
    TestTarget.sampleStr ⟨"/items".data, .get, []⟩ "http://x".data rngZero
      = some ("http://x/items".data, rngZero)
    ∧ strStartsWith "http://x/items".data
        ("http://x".data ++ '/' :: "/items".data) = false :=
  ⟨rfl, by decide⟩

/-! ### Spec-side reference functions for query-string assembly
(following the words of spec section 4.2 step 3). -/

/-- The sampled value of one argument: a path segment value, or a
name/value pair of a query parameter. -/
inductive SampledArg where
  | pathVal (value : Str)
  | queryPair (name : Str) (value : Str)

/-- Sample every argument of a target in declaration order (path argument:
one generator draw; query argument: name then value). -/
def sampleArgs : List TestArg → RNG → Option (List SampledArg × RNG)
  | [], r => some ([], r)
  | .path g :: rest, r =>
      match sample g r with
      | none => none
      | some (v, r1) =>
          match sampleArgs rest r1 with
          | none => none
          | some (items, r2) => some (.pathVal v :: items, r2)
  | .queryString name value :: rest, r =>
      match sample name r with
      | none => none
      | some (n, r1) =>
          match sample value r1 with
          | none => none
          | some (v, r2) =>
              match sampleArgs rest r2 with
              | none => none
              | some (items, r3) => some (.queryPair n v :: items, r3)

/-- Reference path contribution: a slash plus the sampled value for each
path argument, in order. -/
def specPathConcat (items : List SampledArg) : Str :=
  items.foldr
    (fun it acc =>
      match it with
      | .pathVal v => '/' :: v ++ acc
      | .queryPair _ _ => acc) []

/-- Reference rendering of one query parameter: the bare name when the
sampled value is empty, `name=value` otherwise. -/
def specQueryItem (n v : Str) : Str :=
  if v = [] then n else n ++ '=' :: v

/-- The rendered query parameters of a sampled argument list, in order. -/
def specQueryItems (items : List SampledArg) : List Str :=
  items.filterMap fun it =>
    match it with
    | .pathVal _ => none
    | .queryPair n v => some (specQueryItem n v)

/-- Rendered query parameters joined by ampersands. -/
def joinAmp : List Str → Str
  | [] => []
  | [q] => q
  | q :: rest => q ++ '&' :: joinAmp rest

/-- Reference query string: empty when there are no query parameters,
otherwise a question mark followed by the ampersand-joined parameters. -/
def specQueryStr (items : List SampledArg) : Str :=
  match specQueryItems items with
  | [] => []
  | q :: rest => '?' :: joinAmp (q :: rest)

/-- One step of the code's query-string accumulator, per sampled
argument. -/
def qsStep (qs : Str) (it : SampledArg) : Str :=
  match it with
  | .pathVal _ => qs
  | .queryPair n v => (if qs = [] then qs ++ ['?'] else qs ++ ['&']) ++ specQueryItem n v

/-- The code's query-string accumulator folded over a sampled argument
list. -/
def qsAcc (qs : Str) (items : List SampledArg) : Str :=
  items.foldl qsStep qs

/-- The code's query-string accumulator folded over already-rendered
query items. -/
def qsJoin (q : Str) (qsl : List Str) : Str :=
  qsl.foldl (fun b iq => (if b = [] then b ++ ['?'] else b ++ ['&']) ++ iq) q

/-- Ampersand-prefixed concatenation of rendered query items. -/
def ampConcat (qsl : List Str) : Str :=
  qsl.foldr (fun iq acc => '&' :: iq ++ acc) []

theorem qsAcc_eq_qsJoin : ∀ (items : List SampledArg) (q : Str),
    qsAcc q items = qsJoin q (specQueryItems items) := by
  intro items
  induction items with
  | nil => intro q; rfl
  | cons it rest ih =>
      intro q
      cases it with
      | pathVal v =>
          simp only [qsAcc, List.foldl_cons, qsStep, specQueryItems,
            List.filterMap_cons]
          exact ih q
      | queryPair n v =>
          simp only [qsAcc, List.foldl_cons, qsStep, specQueryItems,
            List.filterMap_cons, qsJoin]
          exact ih _

theorem qsJoin_ne_nil : ∀ (qsl : List Str) (q : Str), q ≠ [] →
    qsJoin q qsl = q ++ ampConcat qsl := by
  intro qsl
  induction qsl with
  | nil => intro q _; simp [qsJoin, ampConcat]
  | cons iq rest ih =>
      intro q hq
      have hstep : qsJoin q (iq :: rest) = qsJoin ((q ++ ['&']) ++ iq) rest := by
        simp [qsJoin, List.foldl_cons, if_neg hq]
      rw [hstep, ih _ (by simp),
          show ampConcat (iq :: rest) = '&' :: iq ++ ampConcat rest from rfl]
      simp [List.append_assoc]

theorem joinAmp_eq_ampConcat : ∀ (q : Str) (rest : List Str),
    joinAmp (q :: rest) = q ++ ampConcat rest := by
  intro q rest
  induction rest generalizing q with
  | nil => simp [joinAmp, ampConcat]
  | cons d rest2 ih =>
      simp only [joinAmp, ih d, ampConcat, List.foldr_cons, List.cons_append]

theorem qsAcc_nil_eq_specQueryStr : ∀ items : List SampledArg,
    qsAcc [] items = specQueryStr items := by
  intro items
  rw [qsAcc_eq_qsJoin, specQueryStr]
  cases hq : specQueryItems items with
  | nil => rfl
  | cons q rest =>
      have hstep : qsJoin [] (q :: rest) = qsJoin ('?' :: q) rest := by
        simp [qsJoin, List.foldl_cons]
      rw [hstep, qsJoin_ne_nil _ _ (by simp)]
      show '?' :: q ++ ampConcat rest = '?' :: joinAmp (q :: rest)
      rw [joinAmp_eq_ampConcat]
      rfl

/-- The argument loop computes the reference path contribution and the
reference query-string accumulator of the sampled arguments. -/
theorem argsFold_eq_spec : ∀ (args : List TestArg) (uri qs : Str) (r : RNG),
    argsFold args uri qs r = (sampleArgs args r).map
      (fun p => (uri ++ specPathConcat p.1, qsAcc qs p.1, p.2)) := by
  intro args
  induction args with
  | nil =>
      intro uri qs r
      simp [argsFold, sampleArgs, specPathConcat, qsAcc]
  | cons a rest ih =>
      intro uri qs r
      cases a with
      | path g =>
          cases hs : sample g r with
          | none => simp [argsFold, sampleArgs, hs]
          | some p =>
              obtain ⟨v, r1⟩ := p
              simp only [argsFold, sampleArgs, hs, ih]
              cases hr : sampleArgs rest r1 with
              | none => rfl
              | some pr =>
                  obtain ⟨items, r2⟩ := pr
                  simp only [Option.map_some]
                  simp [specPathConcat, qsAcc, qsStep, List.append_assoc]
      | queryString name value =>
          cases hn : sample name r with
          | none => simp [argsFold, sampleArgs, hn]
          | some pn =>
              obtain ⟨n, r1⟩ := pn
              cases hv : sample value r1 with
              | none => simp [argsFold, sampleArgs, hn, hv]
              | some pv =>
                  obtain ⟨v, r2⟩ := pv
                  simp only [argsFold, sampleArgs, hn, hv, ih]
                  cases hr : sampleArgs rest r2 with
                  | none => rfl
                  | some pr =>
                      obtain ⟨items, r3⟩ := pr
                      simp only [Option.map_some]
                      by_cases hve : v = []
                      · simp [specPathConcat, qsAcc, qsStep, specQueryItem, hve]
                      · simp [specPathConcat, qsAcc, qsStep, specQueryItem, hve,
                          List.append_assoc]

/-- Claim C7 (confirmed): `TestTarget::sample` processes the args in
declaration order - the sampled string is the base/endpoint part, then a
slash plus the sampled value for every path argument in order, then the
query string, which is empty when there are no query parameters and
otherwise a question mark followed by the rendered parameters joined by
ampersands, each rendered as the bare name when its sampled value is empty
and as `name=value` otherwise; in particular one query arg with fixed name
`q` and fixed empty value yields the query string `?q`. -/
theorem c7_declaration_order_query_assembly : ∀ (t : TestTarget) (base : Str) (r : RNG),
    t.sampleStr base r = (sampleArgs t.args r).map
      (fun p =>
        ((base ++ (if strStartsWith t.endpoint ['/'] then [] else ['/']) ++ t.endpoint)
          ++ specPathConcat p.1 ++ specQueryStr p.1, p.2))
    ∧ (TestTarget.sampleStr
        ⟨"/search".data, .get, [.queryString (.fixed "q".data) (.fixed [])]⟩
        "http://x".data rngZero).map (fun p => p.1)
        = some "http://x/search?q".data := by
  intro t base r
  constructor
  · have hfold := argsFold_eq_spec t.args
      (base ++ (if strStartsWith t.endpoint ['/'] then [] else ['/']) ++ t.endpoint) [] r
    simp only [TestTarget.sampleStr, hfold]
    cases hs : sampleArgs t.args r with
    | none => rfl
    | some p =>
        obtain ⟨items, r2⟩ := p
        simp [qsAcc_nil_eq_specQueryStr]
  · rfl
